import Mathlib

/-!
# OHLCV Trading System — verification of the ingest/normalize/batch/transmit core

Shallow embedding of the core components of the OHLCV trading pipeline:

* `extract_json_value` — the minimal key/value scanner
  (`src/engine/ingest/alpha_vantage_client.cpp`, anonymous namespace);
* `parse_time_series_response` — response validation and Tick synthesis;
* `can_make_request` / `record_request` — the rolling 24-hour rate limiter;
* `update_latency_metrics` — the running latency aggregate of the fetch loop;
* `TickData.to_ilp_format` — the ILP line serializer (`tick_data.h`);
* `ILPWriter.write_tick` / `ILPWriter.flush` — the batched line writer
  (`src/engine/ilp_writer/ilp_writer.cpp`).

Strings are modelled as `List Char`; C++ `std::string::find` is `findSub`;
machine integers are `Nat`/`Int`, with an explicit `% 2 ^ 64` at the one place
where `uint64_t` overflow is observable (the nanosecond timestamp product in
`to_ilp_format`).  IEEE doubles are modelled as exact rationals `ℚ`: every
numeric literal appearing in the claims is exactly representable, and the
parser/serializer pair only performs comparisons and fixed-point printing on
values that round-trip exactly.
-/

set_option maxRecDepth 10000

namespace Trading

/-- Convert a Lean string literal to the `List Char` representation used
throughout the embedding. -/
def str (s : String) : List Char := s.data

/-- Test for C-locale `std::isspace`: space, `\t`, `\n`, `\v`, `\f`, `\r`. -/
def isSpaceC (c : Char) : Bool :=
  c = ' ' || c = '\t' || c = '\n' || c = '\x0b' || c = '\x0c' || c = '\r'

/-- The whitespace set `" \t\r\n"` used by the trimming step of
`extract_json_value` (`find_first_not_of`/`find_last_not_of`). -/
def isTrimWs (c : Char) : Bool :=
  c = ' ' || c = '\t' || c = '\r' || c = '\n'

/-- ASCII digit test, as used by the numeric-literal fragment of `strtod`. -/
def isDigitC (c : Char) : Bool := '0' ≤ c && c ≤ '9'

/-- Model of `std::string::find(pat)`: index of the first occurrence of `pat` in
`hay`, or `none` for `npos`.  An empty pattern matches at index 0. -/
def findSub (hay pat : List Char) : Option Nat :=
  if pat.isPrefixOf hay then some 0
  else
    match hay with
    | [] => none
    | _ :: t => (findSub t pat).map (· + 1)

/-- Model of `std::string::find(pat, pos)`: first occurrence of `pat` at or after
index `pos`. -/
def findSubFrom (hay pat : List Char) (pos : Nat) : Option Nat :=
  (findSub (hay.drop pos) pat).map (· + pos)

/-- Whether `hay.find(pat) != npos`. -/
def containsSub (hay pat : List Char) : Bool :=
  (findSub hay pat).isSome

/-- The two-sided trim performed on unquoted extracted values:
`erase(0, find_first_not_of(" \t\r\n"))` followed by
`erase(find_last_not_of(" \t\r\n") + 1)`. -/
def trimValue (s : List Char) : List Char :=
  ((s.dropWhile isTrimWs).reverse.dropWhile isTrimWs).reverse

/-- The literal key marker searched for by `extract_json_value`:
`"\"" + key + "\":"`. -/
def jsonKeyMarker (key : List Char) : List Char :=
  '"' :: (key ++ ['"', ':'])

/-- The loop condition of the unquoted-value scan: continue while the
character is not a structural delimiter (`,`, `}`, `]`). -/
def notDelim (c : Char) : Bool :=
  !(c = ',' || c = '\x7d' || c = ']')

/-- Embedding of `extract_json_value` (`alpha_vantage_client.cpp:27-66`): locate the
literal marker `"key":`, skip whitespace, then return either the content of
a quoted string (up to the next `"`), or the substring up to the next
`,`/`}`/`]` trimmed of surrounding whitespace; empty string on any failure. -/
def extract_json_value (json key : List Char) : List Char :=
  let search_key : List Char := jsonKeyMarker key
  match findSub json search_key with
  | none => []
  | some idx =>
    let rest := (json.drop (idx + search_key.length)).dropWhile isSpaceC
    match rest with
    | [] => []
    | c :: t =>
      if c = '"' then
        match findSub t ['"'] with
        | none => []
        | some e => t.take e
      else
        trimValue ((c :: t).takeWhile notDelim)

/-! ## Numeric-literal parsing (`std::stod` / `std::stoull`) -/

/-- Value of a digit string, most significant digit first. -/
def digitsToNat (ds : List Char) : Nat :=
  ds.foldl (fun a c => a * 10 + (c.toNat - 48)) 0

/-- The plain-decimal fragment of `std::stod`, string phase: optional
leading whitespace and sign, integer digits, optional `.` plus fraction
digits; at least one digit overall, trailing characters ignored; `none`
when no conversion is possible (`std::invalid_argument`, caught by the
parser).  Returns the sign, the integer-part value, the fraction-part
value and the number of fraction digits. -/
def parseDecimalParts (s : List Char) : Option (Bool × Nat × Nat × Nat) :=
  let s1 := s.dropWhile isSpaceC
  let (neg, s2) :=
    match s1 with
    | '-' :: t => (true, t)
    | '+' :: t => (false, t)
    | _ => (false, s1)
  let ip := s2.takeWhile isDigitC
  let s3 := s2.dropWhile isDigitC
  let fp :=
    match s3 with
    | '.' :: t => t.takeWhile isDigitC
    | _ => []
  if ip = [] ∧ fp = [] then none
  else some (neg, digitsToNat ip, digitsToNat fp, fp.length)

/-- The value parsed by `std::stod`, as an exact rational.  Scientific and
hex notation never occur in this data source and are omitted; IEEE rounding
and range are abstracted to exact rationals. -/
def parseDecimal (s : List Char) : Option ℚ :=
  (parseDecimalParts s).map fun p =>
    let mag : ℚ := (p.2.1 : ℚ) + (p.2.2.1 : ℚ) / ((10 : ℚ) ^ p.2.2.2)
    if p.1 then -mag else mag

/-- Model of `std::stoull` in base 10: optional whitespace and sign, decimal digits;
`none` when no digit follows (`std::invalid_argument`) or the value exceeds
`uint64_t` (`std::out_of_range`), both caught by the parser; a minus sign
wraps the value modulo `2 ^ 64`. -/
def parseUInt64 (s : List Char) : Option Nat :=
  let s1 := s.dropWhile isSpaceC
  let (neg, s2) :=
    match s1 with
    | '-' :: t => (true, t)
    | '+' :: t => (false, t)
    | _ => (false, s1)
  let ds := s2.takeWhile isDigitC
  if ds = [] then none
  else
    let v := digitsToNat ds
    if 2 ^ 64 ≤ v then none
    else some (if neg then (2 ^ 64 - v) % 2 ^ 64 else v)

/-! ## Tick data model (`tick_data.h`) -/

/-- Embedding of `TickData` (`tick_data.h:11-50`), fields in declaration order.  `price`
is an exact rational standing for the C++ `double`; all strings are
`List Char`. -/
structure TickData where
  timestamp_us : Nat
  symbol : List Char
  exchange : List Char
  price : ℚ
  quantity : Nat
  side : Char
  receive_time_us : Nat
  process_time_us : Nat
deriving DecidableEq, Repr

/-- The `TickData(sym, exch, p, qty, s)` constructor: stamps `timestamp_us`
and `receive_time_us` from the wall clock (passed explicitly as `ctor_now`)
and zeroes `process_time_us`. -/
def TickData.make (sym exch : List Char) (p : ℚ) (qty : Nat) (s : Char)
    (ctor_now : Nat) : TickData :=
  ⟨ctor_now, sym, exch, p, qty, s, ctor_now, 0⟩

/-! ## ILP line serialization (`TickData::to_ilp_format`) -/

/-- Model of `std::to_string` on an unsigned integer: decimal digits. -/
def natToChars (n : Nat) : List Char := Nat.toDigits 10 n

/-- Model of `std::to_string` on a `double`: `printf("%f")`, i.e. a fixed six
fraction digits, with the decimal rounding performed on the exact value
(the nearest multiple of `10⁻⁶`, ties away from zero). -/
def doubleToChars (q : ℚ) : List Char :=
  let m : Nat := ⌊|q| * 1000000 + 1 / 2⌋₊
  (if q < 0 then ['-'] else []) ++
    natToChars (m / 1000000) ++ ['.'] ++
    List.replicate (6 - (natToChars (m % 1000000)).length) '0' ++
    natToChars (m % 1000000)

/-- Embedding of `TickData::to_ilp_format` (`tick_data.h:42-49`): the ILP line for one
tick.  `timestamp_us * 1000` is `uint64_t` arithmetic, hence the explicit
`% 2 ^ 64`. -/
def TickData.to_ilp_format (t : TickData) : List Char :=
  str "trades,symbol=" ++ t.symbol ++ str ",exchange=" ++ t.exchange ++
    str " price=" ++ doubleToChars t.price ++
    str ",quantity=" ++ natToChars t.quantity ++
    str ",side=\"" ++ [t.side] ++ str "\"" ++
    str " " ++ natToChars (t.timestamp_us * 1000 % 2 ^ 64)

/-- The line shape the specification describes, with the timestamp field
taken verbatim as "origin timestamp in microseconds × 1000" — i.e. the
exact mathematical product, with no 64-bit wrap-around. -/
def ilp_line_spec (t : TickData) : List Char :=
  str "trades,symbol=" ++ t.symbol ++ str ",exchange=" ++ t.exchange ++
    str " price=" ++ doubleToChars t.price ++
    str ",quantity=" ++ natToChars t.quantity ++
    str ",side=\"" ++ [t.side] ++ str "\"" ++
    str " " ++ natToChars (t.timestamp_us * 1000)

/-! ## Response parsing (`parse_time_series_response`) -/

/-- Validation and string-extraction phase of `parse_time_series_response`
(`alpha_vantage_client.cpp:218-288`): reject empty payloads, error markers
and the throttle marker; locate the most recent dated entry after the
`"Time Series (Daily)"` section; extract the five OHLCV field strings from
its data block; `none` on any failure, including an empty
open/close/volume string. -/
def parse_time_series_strings (json_response : List Char) :
    Option (List Char × List Char × List Char × List Char × List Char) :=
  if json_response = [] then none
  else if containsSub json_response (str "Error Message")
      || containsSub json_response (str "Invalid API call") then none
  else if containsSub json_response (str "Thank you for using Alpha Vantage")
      && containsSub json_response (str "call frequency") then none
  else
    match findSub json_response (str "\"Time Series (Daily)\"") with
    | none => none
    | some time_series_pos =>
      match findSubFrom json_response (str "\"20") time_series_pos with
      | none => none
      | some date_start =>
        match findSubFrom json_response ['"'] (date_start + 1) with
        | none => none
        | some date_end =>
          match findSubFrom json_response ['\x7b'] date_end with
          | none => none
          | some data_start =>
            match findSubFrom json_response ['\x7d'] data_start with
            | none => none
            | some data_end =>
              let data_block := (json_response.drop data_start).take (data_end - data_start + 1)
              let open_str := extract_json_value data_block (str "1. open")
              let high_str := extract_json_value data_block (str "2. high")
              let low_str := extract_json_value data_block (str "3. low")
              let close_str := extract_json_value data_block (str "4. close")
              let volume_str := extract_json_value data_block (str "5. volume")
              if open_str = [] || close_str = [] || volume_str = [] then none
              else some (open_str, high_str, low_str, close_str, volume_str)

/-- Numeric-conversion phase of `parse_time_series_response`
(`alpha_vantage_client.cpp:290-296`): run `std::stod`/`std::stoull` on the
extracted strings; any conversion exception is caught and fails the parse. -/
def parse_time_series_fields (json_response : List Char) : Option (ℚ × ℚ × ℚ × ℚ × Nat) :=
  match parse_time_series_strings json_response with
  | none => none
  | some (open_str, high_str, low_str, close_str, volume_str) =>
    match parseDecimal open_str, parseDecimal high_str,
        parseDecimal low_str, parseDecimal close_str,
        parseUInt64 volume_str with
    | some o, some h, some l, some c, some v => some (o, h, l, c, v)
    | _, _, _, _, _ => none

/-- Venue split, `"RELIANCE.BSE" → ("RELIANCE", "BSE")`: split the venue suffix at the
first `.`; default exchange `"BSE"` when no dot is present
(`alpha_vantage_client.cpp:298-306`). -/
def splitSymbol (symbol : List Char) : List Char × List Char :=
  match findSub symbol ['.'] with
  | none => (symbol, str "BSE")
  | some dot_pos => (symbol.take dot_pos, symbol.drop (dot_pos + 1))

/-- Tick-synthesis phase (`alpha_vantage_client.cpp:308-341`): open tick
always; high tick if the high differs from the open; low tick if the low
differs from both; close tick always, side `B` iff close > open; quantity
`volume / 4` each; fabricated timestamps `now`, `now+1`, `now+2`, `now+3`. -/
def synthTicks (o h l c : ℚ) (v : Nat) (clean_symbol exchange : List Char)
    (now ctor_now : Nat) : List TickData :=
  let q := v / 4
  { TickData.make clean_symbol exchange o q 'B' ctor_now with timestamp_us := now } ::
    ((if h ≠ o then
        [{ TickData.make clean_symbol exchange h q 'B' ctor_now with timestamp_us := now + 1 }]
      else []) ++
     (if l ≠ o ∧ l ≠ h then
        [{ TickData.make clean_symbol exchange l q 'S' ctor_now with timestamp_us := now + 2 }]
      else []) ++
     [{ TickData.make clean_symbol exchange c q (if c > o then 'B' else 'S') ctor_now with
          timestamp_us := now + 3 }])

/-- Embedding of `parse_time_series_response`: the C++ boolean result paired with the
list of Ticks appended to the caller's output vector (all `push_back`s
happen after every fallible step, so a failing parse appends nothing).
`now` is the wall-clock microsecond count captured once per response;
`ctor_now` abstracts the clock reads inside the `TickData` constructor,
whose stamps the fetch loop overwrites before any consumer sees them. -/
def parse_time_series_response (json_response symbol : List Char) (now ctor_now : Nat) :
    Bool × List TickData :=
  match parse_time_series_fields json_response with
  | none => (false, [])
  | some (o, h, l, c, v) =>
    let p := splitSymbol symbol
    (true, synthTicks o h l c v p.1 p.2 now ctor_now)

/-! ## Batched line writer (`ilp_writer.cpp`) -/

/-- Embedding of `ILPStats` (`ilp_types.h:18-30`). -/
structure ILPStats where
  lines_sent : Nat
  batches_sent : Nat
  errors : Nat
deriving DecidableEq, Repr

/-- The mutable state of an `ILPWriter` relevant to batching: the
configured `batch_size`, the `running_` flag, the pending `current_batch_`
and the `stats_` counters.  The socket is abstracted into the `send_ok`
oracle passed to `flush` (the outcome of `send_batch`, which fails iff the
descriptor is invalid or `send(2)` reports an error). -/
structure ILPWriterState where
  batch_size : Nat
  running : Bool
  current_batch : List (List Char)
  stats : ILPStats
deriving DecidableEq, Repr

/-- Embedding of `ILPWriter::flush` (`ilp_writer.cpp:121-148`): no-op when the batch is
empty or the writer is not running; otherwise one send attempt of the whole
batch, counter update on its outcome, and the batch is cleared regardless. -/
def ILPWriter.flush (send_ok : Bool) (s : ILPWriterState) : ILPWriterState :=
  if s.current_batch.isEmpty || !s.running then s
  else
    { s with
      stats :=
        if send_ok then
          { lines_sent := s.stats.lines_sent + s.current_batch.length
            batches_sent := s.stats.batches_sent + 1
            errors := s.stats.errors }
        else
          { s.stats with errors := s.stats.errors + 1 }
      current_batch := [] }

/-- Embedding of `ILPWriter::write_tick` (`ilp_writer.cpp:103-119`): no-op when not
running; serialize the tick, append it to the batch, and flush when the
batch has reached the configured size.  Also returns whether a flush was
triggered. -/
def ILPWriter.write_tick (send_ok : Bool) (tick : TickData) (s : ILPWriterState) :
    ILPWriterState × Bool :=
  if !s.running then (s, false)
  else
    let s1 := { s with current_batch := s.current_batch ++ [TickData.to_ilp_format tick] }
    if s.batch_size ≤ s1.current_batch.length then (ILPWriter.flush send_ok s1, true)
    else (s1, false)

/-- The writer state right after a successful `start()`: running, empty
batch, zeroed statistics. -/
def ILPWriter.start_state (batch_size : Nat) : ILPWriterState :=
  ⟨batch_size, true, [], ⟨0, 0, 0⟩⟩

/-- A sequence of `write_tick` calls, each with the send outcome its
potential flush would observe. -/
def ILPWriter.write_many (s : ILPWriterState) (inputs : List (Bool × TickData)) :
    ILPWriterState :=
  inputs.foldl (fun st i => (ILPWriter.write_tick i.1 i.2 st).1) s

/-! ## Latency metrics (`alpha_vantage_client.h:34-41`, fetch-loop update at
`alpha_vantage_client.cpp:392-418`) -/

/-- Sentinel `std::chrono::microseconds::max().count()`: the `int64_t` maximum, used
as the initial minimum-latency sentinel. -/
def latencySentinel : Nat := 9223372036854775807

/-- Embedding of `AlphaVantageClient::LatencyMetrics`: durations in microseconds. -/
structure LatencyMetrics where
  avg_api_latency : Nat
  max_api_latency : Nat
  min_api_latency : Nat
  request_count : Nat
  error_count : Nat
deriving DecidableEq, Repr

/-- The default-constructed metrics: zeros, with the minimum at the
sentinel. -/
def LatencyMetrics.init : LatencyMetrics :=
  ⟨0, 0, latencySentinel, 0, 0⟩

/-- The metrics update performed once per request in `data_fetch_loop`:
increment the request count; on an empty response increment the error count
only; on a non-empty response recompute the running average as
`(avg * (request_count - 1) + latency) / request_count` (with the already
incremented total request count) and fold the sample into min/max. -/
def update_latency_metrics (sample : Option Nat) (m : LatencyMetrics) : LatencyMetrics :=
  let rc := m.request_count + 1
  match sample with
  | none =>
    { m with request_count := rc, error_count := m.error_count + 1 }
  | some lat =>
    let total := m.avg_api_latency * (rc - 1)
    { avg_api_latency := (total + lat) / rc
      max_api_latency := if m.max_api_latency < lat then lat else m.max_api_latency
      min_api_latency := if lat < m.min_api_latency then lat else m.min_api_latency
      request_count := rc
      error_count := m.error_count }

/-- The metrics state after a sequence of per-request updates. -/
def run_updates (m : LatencyMetrics) (samples : List (Option Nat)) : LatencyMetrics :=
  samples.foldl (fun acc s => update_latency_metrics s acc) m

/-! ## Rolling 24-hour rate limiter
(`alpha_vantage_client.cpp:456-492`) -/

/-- Quota constant `MAX_REQUESTS_PER_DAY` (`alpha_vantage_client.h:75`). -/
def MAX_REQUESTS_PER_DAY : Nat := 25

/-- Twenty-four hours in microseconds; timestamps are `Int` microsecond counts of
`system_clock`. -/
def DAY_US : Int := 86400000000

/-- Embedding of `AlphaVantageClient::can_make_request` (`:456-474`): a `const` method —
it counts the stored timestamps strictly inside the trailing 24-hour window
(`time > now - 24h`) and compares against the quota.  It is modelled as
returning the verdict together with the (unchanged) stored sequence, making
its freedom from side effects explicit. -/
def can_make_request (request_times : List Int) (now : Int) : Bool × List Int :=
  (decide ((request_times.filter (fun t => decide (now - DAY_US < t))).length
      < MAX_REQUESTS_PER_DAY),
    request_times)

/-- Embedding of `AlphaVantageClient::record_request` (`:476-492`): append the current
timestamp, then erase entries with `time <= now - 24h`. -/
def record_request (request_times : List Int) (now : Int) : List Int :=
  (request_times ++ [now]).filter (fun t => decide (now - DAY_US < t))

/-- A sequence of `record_request` calls at the given instants. -/
def record_all (request_times : List Int) (nows : List Int) : List Int :=
  nows.foldl record_request request_times

/-- A canonical well-formed response whose most recent entry has
open=100, high=105, low=100, close=102, volume=4000. -/
def respC8 : List Char :=
  str "\x7b \"Meta Data\": \x7b\x7d, \"Time Series (Daily)\": \x7b \"2024-01-15\": \x7b \"1. open\": \"100.0\", \"2. high\": \"105.0\", \"3. low\": \"100.0\", \"4. close\": \"102.0\", \"5. volume\": \"4000\" \x7d \x7d \x7d"

/-! ## Lemmas about the substring search -/

theorem findSub_eq_none_iff {hay pat : List Char} :
    findSub hay pat = none ↔ ¬ pat <:+: hay := by
  induction hay with
  | nil =>
    by_cases h : pat = []
    · subst h; simp [findSub]
    · simp [findSub, List.infix_nil, h, List.isPrefixOf_iff_prefix, List.prefix_nil]
  | cons a t ih =>
    by_cases h : pat <+: a :: t
    · simp [findSub, List.isPrefixOf_iff_prefix, h, List.infix_cons_iff]
    · simp [findSub, List.isPrefixOf_iff_prefix, h, List.infix_cons_iff, ih,
        Option.map_eq_none']

theorem singleton_infix_iff_mem {c : Char} {l : List Char} : [c] <:+: l ↔ c ∈ l := by
  constructor
  · rintro ⟨s, t, rfl⟩; simp
  · intro h
    obtain ⟨s, t, rfl⟩ := List.append_of_mem h
    exact ⟨s, t, by simp⟩

/-- Locating a single character that is absent from the prefix `v`. -/
theorem findSub_singleton_append {v u : List Char} {c : Char} (h : c ∉ v) :
    findSub (v ++ c :: u) [c] = some v.length := by
  induction v with
  | nil => simp [findSub, List.isPrefixOf_iff_prefix]
  | cons a v' ih =>
    have ha : a ≠ c := by rintro rfl; exact h (List.mem_cons_self _ _)
    have hne : ¬ ([c] <+: a :: (v' ++ c :: u)) := by
      simp [List.cons_prefix_cons, ha.symm]
    simp only [List.cons_append, findSub, List.isPrefixOf_iff_prefix]
    rw [if_neg hne]
    show Option.map (· + 1) (findSub (v' ++ c :: u) [c]) = some (a :: v').length
    rw [ih (fun hv => h (List.mem_cons_of_mem _ hv))]
    rfl

theorem takeWhile_eq_of_append {p : Char → Bool} {w u : List Char} {d : Char}
    (hw : ∀ x ∈ w, p x = true) (hd : p d = false) :
    (w ++ d :: u).takeWhile p = w := by
  rw [List.takeWhile_append_of_pos hw]
  simp [List.takeWhile_cons, hd]

/-- C6: the extractor returns `""` when the key marker is absent or the
blob is truncated before the value can be isolated (nothing but whitespace
after the marker, or an unterminated quoted value); otherwise it returns the
exact value: the content between the quotes for a quoted value, and the
whitespace-trimmed substring up to the next `,`/`}`/`]` for an unquoted one.
Concrete instances: key `4. close` with value `123.45` yields `123.45`; key
`side` with value `"B"` yields `B` without the quotes. -/
theorem c6_extract_json_value_contract :
    (∀ json key, ¬ (jsonKeyMarker key <:+: json) → extract_json_value json key = []) ∧
    (∀ json key i, findSub json (jsonKeyMarker key) = some i →
      (json.drop (i + (jsonKeyMarker key).length)).dropWhile isSpaceC = [] →
      extract_json_value json key = []) ∧
    (∀ json key i t, findSub json (jsonKeyMarker key) = some i →
      (json.drop (i + (jsonKeyMarker key).length)).dropWhile isSpaceC = '"' :: t →
      '"' ∉ t →
      extract_json_value json key = []) ∧
    (∀ json key i v u, findSub json (jsonKeyMarker key) = some i →
      (json.drop (i + (jsonKeyMarker key).length)).dropWhile isSpaceC = '"' :: (v ++ '"' :: u) →
      '"' ∉ v →
      extract_json_value json key = v) ∧
    (∀ json key i c t w d u, findSub json (jsonKeyMarker key) = some i →
      (json.drop (i + (jsonKeyMarker key).length)).dropWhile isSpaceC = c :: t →
      c ≠ '"' →
      c :: t = w ++ d :: u →
      (d = ',' ∨ d = '\x7d' ∨ d = ']') →
      (∀ x ∈ w, ¬ (x = ',' ∨ x = '\x7d' ∨ x = ']')) →
      extract_json_value json key = trimValue w) ∧
    extract_json_value (str "\x7b\"4. close\": 123.45, \"x\": 1\x7d") (str "4. close")
      = str "123.45" ∧
    extract_json_value (str "\x7b\"side\": \"B\"\x7d") (str "side") = str "B" := by
  refine ⟨?_, ?_, ?_, ?_, ?_, by decide, by decide⟩
  · intro json key h
    have h0 : findSub json (jsonKeyMarker key) = none := findSub_eq_none_iff.mpr h
    simp [extract_json_value, h0]
  · intro json key i h1 h2
    simp [extract_json_value, h1, h2]
  · intro json key i t h1 h2 h3
    have hq : findSub t ['"'] = none :=
      findSub_eq_none_iff.mpr (fun hc => h3 (singleton_infix_iff_mem.mp hc))
    simp [extract_json_value, h1, h2, hq]
  · intro json key i v u h1 h2 h3
    have hq : findSub (v ++ '"' :: u) ['"'] = some v.length := findSub_singleton_append h3
    simp [extract_json_value, h1, h2, hq, List.take_left]
  · intro json key i c t w d u h1 h2 hc hsplit hd hw
    have htw : (c :: t).takeWhile notDelim = w := by
      rw [hsplit]
      apply takeWhile_eq_of_append
      · intro x hx
        have h' := hw x hx
        push_neg at h'
        simp [notDelim, h'.1, h'.2.1, h'.2.2]
      · rcases hd with rfl | rfl | rfl <;> simp [notDelim]
    simp [extract_json_value, h1, h2, hc, htw]

/-- Closed instance of `c6_extract_json_value_contract`: the marker for key
`a` does not occur in the blob `{"b": 1}`, so the extractor returns `""`. -/
theorem c6_extract_json_value_contract_witness :
    ¬ (jsonKeyMarker (str "a") <:+: str "\x7b\"b\": 1\x7d") ∧
    extract_json_value (str "\x7b\"b\": 1\x7d") (str "a") = [] := by
  have h : ¬ (jsonKeyMarker (str "a") <:+: str "\x7b\"b\": 1\x7d") := by
    rw [← findSub_eq_none_iff]; decide
  exact ⟨h, c6_extract_json_value_contract.1 _ _ h⟩

/-- C7: a response payload that is empty, contains an explicit error
marker, or contains the throttle marker (both of its substrings) makes
`parse_time_series_response` return `false` and append zero Ticks. -/
theorem c7_reject_paths (json_response symbol : List Char) (now ctor_now : Nat)
    (h : json_response = [] ∨
      containsSub json_response (str "Error Message") = true ∨
      containsSub json_response (str "Invalid API call") = true ∨
      (containsSub json_response (str "Thank you for using Alpha Vantage") = true ∧
        containsSub json_response (str "call frequency") = true)) :
    parse_time_series_response json_response symbol now ctor_now = (false, []) := by
  have hs : parse_time_series_strings json_response = none := by
    rcases h with rfl | h1 | h2 | ⟨h3, h4⟩
    · simp [parse_time_series_strings]
    · by_cases he : json_response = []
      · subst he; simp [parse_time_series_strings]
      · simp [parse_time_series_strings, he, h1]
    · by_cases he : json_response = []
      · subst he; simp [parse_time_series_strings]
      · simp [parse_time_series_strings, he, h2]
    · by_cases he : json_response = []
      · subst he; simp [parse_time_series_strings]
      · by_cases herr : (containsSub json_response (str "Error Message")
            || containsSub json_response (str "Invalid API call")) = true
        · simp [parse_time_series_strings, he, herr]
        · simp [parse_time_series_strings, he, herr, h3, h4]
  simp [parse_time_series_response, parse_time_series_fields, hs]

/-- Closed instance of `c7_reject_paths`: a payload carrying the
`Error Message` marker is rejected with no Ticks. -/
theorem c7_reject_paths_witness :
    containsSub (str "\x7b\"Error Message\": \"Invalid API call\"\x7d") (str "Error Message") = true ∧
    parse_time_series_response (str "\x7b\"Error Message\": \"Invalid API call\"\x7d")
      (str "IBM") 0 0 = (false, []) :=
  ⟨by decide,
   c7_reject_paths _ _ 0 0 (Or.inr (Or.inl (by decide)))⟩

/-- C8: on the canonical response with open=100, high=105, low=100,
close=102, volume=4000, parsing succeeds and synthesizes exactly 3 Ticks —
open, high, close; the low tick is skipped because the low equals the open —
each with quantity `4000 / 4 = 1000`, sides `B`, `B`, `B` (close > open),
and fabricated timestamps `base`, `base+1`, `base+3`. -/
theorem c8_ohlcv_scenario (now ctor_now : Nat) :
    (parse_time_series_response respC8 (str "RELIANCE.BSE") now ctor_now).1 = true ∧
    (parse_time_series_response respC8 (str "RELIANCE.BSE") now ctor_now).2.map
        (fun t => (t.symbol, t.exchange, t.price, t.quantity, t.side, t.timestamp_us)) =
      [(str "RELIANCE", str "BSE", (100 : ℚ), 1000, 'B', now),
       (str "RELIANCE", str "BSE", (105 : ℚ), 1000, 'B', now + 1),
       (str "RELIANCE", str "BSE", (102 : ℚ), 1000, 'B', now + 3)] := by
  have hs : parse_time_series_strings respC8 =
      some (str "100.0", str "105.0", str "100.0", str "102.0", str "4000") := by decide
  have ho : parseDecimalParts (str "100.0") = some (false, 100, 0, 1) := by decide
  have hh : parseDecimalParts (str "105.0") = some (false, 105, 0, 1) := by decide
  have hc : parseDecimalParts (str "102.0") = some (false, 102, 0, 1) := by decide
  have hv : parseUInt64 (str "4000") = some 4000 := by decide
  have hf : parse_time_series_fields respC8 = some (100, 105, 100, 102, 4000) := by
    simp only [parse_time_series_fields, hs, parseDecimal, ho, hh, hc, hv, Option.map_some']
    norm_num
  have hsym : splitSymbol (str "RELIANCE.BSE") = (str "RELIANCE", str "BSE") := by decide
  have h1 : ((105 : ℚ) ≠ 100) := by norm_num
  have h2 : ¬ ((100 : ℚ) ≠ 100 ∧ (100 : ℚ) ≠ 105) := by norm_num
  have h3 : ((102 : ℚ) > 100) := by norm_num
  constructor <;>
    simp [parse_time_series_response, hf, hsym, synthTicks, TickData.make, h1, h2, h3]

/-- Structure of the synthesized tick list: 2–4 entries, first price is the
open, last price is the close, the high tick (timestamp `now+1`) is present
iff the high differs from the open, the low tick (timestamp `now+2`) iff
the low differs from both. -/
theorem synthTicks_structure (o h l c : ℚ) (v : Nat) (cs ex : List Char)
    (now ctor_now : Nat) :
    2 ≤ (synthTicks o h l c v cs ex now ctor_now).length ∧
    (synthTicks o h l c v cs ex now ctor_now).length ≤ 4 ∧
    (synthTicks o h l c v cs ex now ctor_now).head?.map TickData.price = some o ∧
    (synthTicks o h l c v cs ex now ctor_now).getLast?.map TickData.price = some c ∧
    ((∃ t ∈ synthTicks o h l c v cs ex now ctor_now, t.timestamp_us = now + 1) ↔ h ≠ o) ∧
    ((∃ t ∈ synthTicks o h l c v cs ex now ctor_now, t.timestamp_us = now + 2) ↔
      (l ≠ o ∧ l ≠ h)) := by
  by_cases hH : h = o <;> by_cases hLo : l = o <;> by_cases hLh : l = h <;>
    simp [synthTicks, TickData.make, hH, hLo, hLh]

/-- C10: every successful parse appends between 2 and 4 Ticks: the open
tick and the close tick are unconditional (never a single Tick), the first
appended Tick carries the open price and the last the close price, and the
high tick (timestamp `now+1`) and low tick (timestamp `now+2`) are appended
exactly when their price differs from the previously emitted prices (the
open for the high; the open and the high for the low). -/
theorem c10_success_tick_bounds (json_response symbol : List Char) (now ctor_now : Nat)
    (ticks : List TickData)
    (hp : parse_time_series_response json_response symbol now ctor_now = (true, ticks)) :
    ∃ o h l c v, parse_time_series_fields json_response = some (o, h, l, c, v) ∧
      2 ≤ ticks.length ∧ ticks.length ≤ 4 ∧
      ticks.head?.map TickData.price = some o ∧
      ticks.getLast?.map TickData.price = some c ∧
      ((∃ t ∈ ticks, t.timestamp_us = now + 1) ↔ h ≠ o) ∧
      ((∃ t ∈ ticks, t.timestamp_us = now + 2) ↔ (l ≠ o ∧ l ≠ h)) := by
  cases hf : parse_time_series_fields json_response with
  | none => simp [parse_time_series_response, hf] at hp
  | some q =>
    obtain ⟨o, h, l, c, v⟩ := q
    have hticks :
        ticks = synthTicks o h l c v (splitSymbol symbol).1 (splitSymbol symbol).2
          now ctor_now := by
      simp only [parse_time_series_response, hf, Prod.mk.injEq] at hp
      exact hp.2.symm
    subst hticks
    exact ⟨o, h, l, c, v, rfl, synthTicks_structure o h l c v _ _ now ctor_now⟩

/-- Closed instance of `c10_success_tick_bounds` at the canonical response. -/
theorem c10_success_tick_bounds_witness :
    ∃ o h l c v, parse_time_series_fields respC8 = some (o, h, l, c, v) ∧
      2 ≤ ((parse_time_series_response respC8 (str "RELIANCE.BSE") 0 0).2).length ∧
      ((parse_time_series_response respC8 (str "RELIANCE.BSE") 0 0).2).length ≤ 4 ∧
      ((parse_time_series_response respC8 (str "RELIANCE.BSE") 0 0).2).head?.map
        TickData.price = some o ∧
      ((parse_time_series_response respC8 (str "RELIANCE.BSE") 0 0).2).getLast?.map
        TickData.price = some c ∧
      ((∃ t ∈ (parse_time_series_response respC8 (str "RELIANCE.BSE") 0 0).2,
          t.timestamp_us = 0 + 1) ↔ h ≠ o) ∧
      ((∃ t ∈ (parse_time_series_response respC8 (str "RELIANCE.BSE") 0 0).2,
          t.timestamp_us = 0 + 2) ↔ (l ≠ o ∧ l ≠ h)) := by
  apply c10_success_tick_bounds respC8 (str "RELIANCE.BSE") 0 0
  have hs : parse_time_series_strings respC8 =
      some (str "100.0", str "105.0", str "100.0", str "102.0", str "4000") := by decide
  have ho : parseDecimalParts (str "100.0") = some (false, 100, 0, 1) := by decide
  have hh : parseDecimalParts (str "105.0") = some (false, 105, 0, 1) := by decide
  have hc : parseDecimalParts (str "102.0") = some (false, 102, 0, 1) := by decide
  have hv : parseUInt64 (str "4000") = some 4000 := by decide
  have hf : parse_time_series_fields respC8 = some (100, 105, 100, 102, 4000) := by
    simp only [parse_time_series_fields, hs, parseDecimal, ho, hh, hc, hv, Option.map_some']
    norm_num
  have h1 : (parse_time_series_response respC8 (str "RELIANCE.BSE") 0 0).1 = true := by
    simp [parse_time_series_response, hf]
  rw [← h1]

/-- The `uint64_t` product `timestamp_us * 1000` wraps: for the tick with
`timestamp_us = 2 ^ 61` the serialized nanosecond field is
`2 ^ 61 * 1000 mod 2 ^ 64 = 0`, not the mathematical product the claim
states, so the produced line differs from the claimed one. -/
theorem c9_wrap_counterexample :
    TickData.to_ilp_format ⟨2 ^ 61, str "A", str "B", 1, 0, 'B', 0, 0⟩ ≠
      ilp_line_spec ⟨2 ^ 61, str "A", str "B", 1, 0, 'B', 0, 0⟩ := by
  intro h
  have h2 : natToChars (2 ^ 61 * 1000 % 2 ^ 64) = natToChars (2 ^ 61 * 1000) :=
    List.append_cancel_left h
  exact absurd h2 (by decide)

/-- C9 (amended): `to_ilp_format` produces
`trades,symbol=<symbol>,exchange=<venue> price=<price>,quantity=<quantity>,side="<B|S>" <timestamp_ns>`
with `<timestamp_ns> = timestamp_us × 1000 mod 2 ^ 64`; whenever the product
fits in `uint64_t` this is the exact product, and in particular the
RELIANCE tick of the claim serializes to exactly the claimed line. -/
theorem c9_ilp_line_format :
    (∀ t : TickData, t.timestamp_us * 1000 < 2 ^ 64 →
      TickData.to_ilp_format t = ilp_line_spec t) ∧
    TickData.to_ilp_format
        ⟨1700000000000000, str "RELIANCE", str "BSE", 2500.5, 10, 'B', 0, 0⟩ =
      str "trades,symbol=RELIANCE,exchange=BSE price=2500.500000,quantity=10,side=\"B\" 1700000000000000000" := by
  constructor
  · intro t ht
    have ht' : t.timestamp_us * 1000 < 18446744073709551616 := by norm_num at ht; exact ht
    simp [TickData.to_ilp_format, ilp_line_spec, Nat.mod_eq_of_lt ht']
  · have habs : |(2500.5 : ℚ)| = 2500.5 := abs_of_pos (by norm_num)
    have hm : ⌊|(2500.5 : ℚ)| * 1000000 + 1 / 2⌋₊ = (2500500000 : ℕ) := by
      rw [Nat.floor_eq_iff (by positivity)]
      rw [habs]
      norm_num
    have hneg : ¬ ((2500.5 : ℚ) < 0) := by norm_num
    simp only [TickData.to_ilp_format, doubleToChars, hm, hneg, if_false]
    decide

/-- Closed instance of `c9_ilp_line_format`: the RELIANCE tick's product
fits in `uint64_t`, so the produced line is the spec line. -/
theorem c9_ilp_line_format_witness :
    1700000000000000 * 1000 < 2 ^ 64 ∧
    TickData.to_ilp_format
        ⟨1700000000000000, str "RELIANCE", str "BSE", 2500.5, 10, 'B', 0, 0⟩ =
      ilp_line_spec ⟨1700000000000000, str "RELIANCE", str "BSE", 2500.5, 10, 'B', 0, 0⟩ :=
  ⟨by norm_num, c9_ilp_line_format.1 _ (by norm_num)⟩

/-- Flushing: `flush` on a running writer with a non-empty batch clears the batch and
touches nothing but the stats. -/
theorem ILPWriter.flush_clears (ok : Bool) (s : ILPWriterState)
    (h1 : s.running = true) (h2 : s.current_batch ≠ []) :
    (ILPWriter.flush ok s).current_batch = [] ∧
    (ILPWriter.flush ok s).running = s.running ∧
    (ILPWriter.flush ok s).batch_size = s.batch_size := by
  simp [ILPWriter.flush, h1, h2]

/-- One `write_tick` preserves the invariant `running ∧ batch_size = B ∧
pending < B` (for `B ≥ 1`). -/
theorem ILPWriter.write_tick_preserves {B : Nat} (hB : 1 ≤ B) (ok : Bool)
    (tick : TickData) (s : ILPWriterState)
    (h : s.running = true ∧ s.batch_size = B ∧ s.current_batch.length < B) :
    (ILPWriter.write_tick ok tick s).1.running = true ∧
    (ILPWriter.write_tick ok tick s).1.batch_size = B ∧
    (ILPWriter.write_tick ok tick s).1.current_batch.length < B := by
  obtain ⟨hr, hsz, hlt⟩ := h
  by_cases hfull : B ≤ s.current_batch.length + 1
  · have hne : s.current_batch ++ [TickData.to_ilp_format tick] ≠ [] := by simp
    simp [ILPWriter.write_tick, hr, hsz, hfull, ILPWriter.flush, hne]
    omega
  · simp [ILPWriter.write_tick, hr, hsz, hfull]
    omega

/-- Any state reached from a fresh running writer by `write_tick` calls is
still running, keeps its configured size, and holds fewer than `B` pending
lines. -/
theorem ILPWriter.write_many_invariant {B : Nat} (hB : 1 ≤ B)
    (inputs : List (Bool × TickData)) (s : ILPWriterState)
    (h : s.running = true ∧ s.batch_size = B ∧ s.current_batch.length < B) :
    (ILPWriter.write_many s inputs).running = true ∧
    (ILPWriter.write_many s inputs).batch_size = B ∧
    (ILPWriter.write_many s inputs).current_batch.length < B := by
  induction inputs generalizing s with
  | nil => exact h
  | cons i rest ih =>
    exact ih _ (ILPWriter.write_tick_preserves hB i.1 i.2 s h)

/-- C1: along every sequence of `write_tick` calls on a running writer
with batch size `B ≥ 1`, the pending count stays below `B` (so it reaches
`B` only transiently inside `write_tick`); a `write_tick` triggers a flush
exactly when the pending count reaches `B` with the new line; and every
flush that proceeds (non-empty batch, running writer) leaves a pending
count of 0, whatever the send outcome was. -/
theorem c1_flush_exactly_at_batch_size (B : Nat) (hB : 1 ≤ B)
    (inputs : List (Bool × TickData)) :
    (ILPWriter.write_many (ILPWriter.start_state B) inputs).current_batch.length < B ∧
    (∀ (s : ILPWriterState) (ok : Bool) (tick : TickData),
      s.running = true → s.batch_size = B → s.current_batch.length < B →
      ((ILPWriter.write_tick ok tick s).2 = true ↔ s.current_batch.length + 1 = B)) ∧
    (∀ (s : ILPWriterState) (ok : Bool),
      s.running = true → s.current_batch ≠ [] →
      (ILPWriter.flush ok s).current_batch = []) := by
  refine ⟨(ILPWriter.write_many_invariant hB inputs _
    ⟨rfl, rfl, by simpa [ILPWriter.start_state] using hB⟩).2.2, ?_, ?_⟩
  · intro s ok tick hr hsz hlt
    simp only [ILPWriter.write_tick, hr, hsz]
    by_cases hfull : B ≤ s.current_batch.length + 1
    · simp [hfull]
      omega
    · simp [hfull]
      omega
  · intro s ok hr hne
    exact (ILPWriter.flush_clears ok s hr hne).1

/-- Closed instance of `c1_flush_exactly_at_batch_size` at `B = 1` and the
empty call sequence. -/
theorem c1_flush_exactly_at_batch_size_witness :
    (ILPWriter.write_many (ILPWriter.start_state 1) []).current_batch.length < 1 ∧
    (∀ (s : ILPWriterState) (ok : Bool) (tick : TickData),
      s.running = true → s.batch_size = 1 → s.current_batch.length < 1 →
      ((ILPWriter.write_tick ok tick s).2 = true ↔ s.current_batch.length + 1 = 1)) ∧
    (∀ (s : ILPWriterState) (ok : Bool),
      s.running = true → s.current_batch ≠ [] →
      (ILPWriter.flush ok s).current_batch = []) :=
  c1_flush_exactly_at_batch_size 1 (by decide) []

/-- C2: a flush of a non-empty batch by a running writer updates the
counters by exactly: `+length` lines and `+1` batches on a successful send
(errors unchanged), `+1` errors on a failed send (lines and batches
unchanged). -/
theorem c2_flush_stats (s : ILPWriterState) (ok : Bool)
    (h1 : s.running = true) (h2 : s.current_batch ≠ []) :
    (ILPWriter.flush ok s).stats.lines_sent
        = s.stats.lines_sent + (if ok then s.current_batch.length else 0) ∧
    (ILPWriter.flush ok s).stats.batches_sent
        = s.stats.batches_sent + (if ok then 1 else 0) ∧
    (ILPWriter.flush ok s).stats.errors
        = s.stats.errors + (if ok then 0 else 1) := by
  cases ok <;> simp [ILPWriter.flush, h1, h2]

/-- Closed instance of `c2_flush_stats`: a one-line batch, successful send. -/
theorem c2_flush_stats_witness :
    (ILPWriter.flush true ⟨100, true, [str "x"], ⟨0, 0, 0⟩⟩).stats.lines_sent
        = 0 + (if true then ([str "x"] : List (List Char)).length else 0) ∧
    (ILPWriter.flush true ⟨100, true, [str "x"], ⟨0, 0, 0⟩⟩).stats.batches_sent
        = 0 + (if true then 1 else 0) ∧
    (ILPWriter.flush true ⟨100, true, [str "x"], ⟨0, 0, 0⟩⟩).stats.errors
        = 0 + (if true then 0 else 1) :=
  c2_flush_stats ⟨100, true, [str "x"], ⟨0, 0, 0⟩⟩ true rfl (by decide)

/-- The latency-metrics state reached by a failed request followed by a
successful one with latency 10 µs is reachable, has exactly one successful
sample, and violates `min ≤ avg`: the average divides by the total request
count (2), which counts the failed request, giving `avg = 5 < min = 10`. -/
theorem c3_min_le_avg_counterexample :
    (run_updates LatencyMetrics.init [none, some 10]).min_api_latency = 10 ∧
    (run_updates LatencyMetrics.init [none, some 10]).avg_api_latency = 5 ∧
    (run_updates LatencyMetrics.init [none, some 10]).max_api_latency = 10 ∧
    (run_updates LatencyMetrics.init [none, some 10]).request_count
        - (run_updates LatencyMetrics.init [none, some 10]).error_count = 1 ∧
    ¬ ((run_updates LatencyMetrics.init [none, some 10]).min_api_latency
        ≤ (run_updates LatencyMetrics.init [none, some 10]).avg_api_latency) := by
  decide

/-- One update preserves `min ≤ avg ≤ max`: the error path changes only
counters, and the success path replaces the average by a weighted mean of
the old average and the new sample, both of which lie between the updated
min and max. -/
theorem update_latency_metrics_preserves (m : LatencyMetrics) (s : Option Nat)
    (h1 : m.min_api_latency ≤ m.avg_api_latency)
    (h2 : m.avg_api_latency ≤ m.max_api_latency) :
    (update_latency_metrics s m).min_api_latency
        ≤ (update_latency_metrics s m).avg_api_latency ∧
    (update_latency_metrics s m).avg_api_latency
        ≤ (update_latency_metrics s m).max_api_latency := by
  cases s with
  | none => simpa [update_latency_metrics] using ⟨h1, h2⟩
  | some lat =>
    simp only [update_latency_metrics, Nat.add_sub_cancel]
    constructor
    · rw [Nat.le_div_iff_mul_le (Nat.succ_pos m.request_count)]
      by_cases hlt : lat < m.min_api_latency
      · rw [if_pos hlt]
        calc lat * (m.request_count + 1)
            = lat * m.request_count + lat := by ring
          _ ≤ m.avg_api_latency * m.request_count + lat :=
              Nat.add_le_add_right
                (Nat.mul_le_mul_right _ (le_trans (le_of_lt hlt) h1)) lat
      · rw [if_neg hlt]
        calc m.min_api_latency * (m.request_count + 1)
            = m.min_api_latency * m.request_count + m.min_api_latency := by ring
          _ ≤ m.avg_api_latency * m.request_count + lat :=
              Nat.add_le_add (Nat.mul_le_mul_right _ h1) (Nat.le_of_not_lt hlt)
    · have hup :
          m.avg_api_latency * m.request_count + lat
            ≤ (if m.max_api_latency < lat then lat else m.max_api_latency)
                * (m.request_count + 1) := by
        by_cases hmx : m.max_api_latency < lat
        · rw [if_pos hmx]
          calc m.avg_api_latency * m.request_count + lat
              ≤ lat * m.request_count + lat :=
                Nat.add_le_add_right
                  (Nat.mul_le_mul_right _ (le_trans h2 (le_of_lt hmx))) lat
            _ = lat * (m.request_count + 1) := by ring
        · rw [if_neg hmx]
          calc m.avg_api_latency * m.request_count + lat
              ≤ m.max_api_latency * m.request_count + m.max_api_latency :=
                Nat.add_le_add (Nat.mul_le_mul_right _ h2) (Nat.le_of_not_lt hmx)
            _ = m.max_api_latency * (m.request_count + 1) := by ring
      calc (m.avg_api_latency * m.request_count + lat) / (m.request_count + 1)
          ≤ ((if m.max_api_latency < lat then lat else m.max_api_latency)
              * (m.request_count + 1)) / (m.request_count + 1) :=
            Nat.div_le_div_right hup
        _ = _ := Nat.mul_div_cancel _ (Nat.succ_pos m.request_count)

/-- After a first successful sample from the initial state, `min ≤ avg ≤ max`
holds. -/
theorem update_latency_metrics_first_success (lat : Nat) :
    (update_latency_metrics (some lat) LatencyMetrics.init).min_api_latency
        ≤ (update_latency_metrics (some lat) LatencyMetrics.init).avg_api_latency ∧
    (update_latency_metrics (some lat) LatencyMetrics.init).avg_api_latency
        ≤ (update_latency_metrics (some lat) LatencyMetrics.init).max_api_latency := by
  simp only [update_latency_metrics, LatencyMetrics.init, latencySentinel]
  norm_num
  constructor <;> split_ifs <;> omega

/-- Invariant `min ≤ avg ≤ max` is preserved by any further sequence of updates. -/
theorem run_updates_preserves (samples : List (Option Nat)) (m : LatencyMetrics)
    (h1 : m.min_api_latency ≤ m.avg_api_latency)
    (h2 : m.avg_api_latency ≤ m.max_api_latency) :
    (run_updates m samples).min_api_latency ≤ (run_updates m samples).avg_api_latency ∧
    (run_updates m samples).avg_api_latency ≤ (run_updates m samples).max_api_latency := by
  induction samples generalizing m with
  | nil => exact ⟨h1, h2⟩
  | cons s rest ih =>
    have h := update_latency_metrics_preserves m s h1 h2
    exact ih _ h.1 h.2

/-- C3 (amended): if the first completed request is successful (no empty
response precedes the first successful sample), then every later reachable
metrics state satisfies `min_api_latency ≤ avg_api_latency ≤
max_api_latency`, and the invariant is preserved by every subsequent
update, including updates for requests whose response is empty.  (As stated,
the claim fails: an empty response before the first success inflates the
request count that the running average divides by — see the
counterexample.) -/
theorem c3_min_avg_max_amended (lat : Nat) (rest : List (Option Nat)) :
    (run_updates LatencyMetrics.init (some lat :: rest)).min_api_latency
        ≤ (run_updates LatencyMetrics.init (some lat :: rest)).avg_api_latency ∧
    (run_updates LatencyMetrics.init (some lat :: rest)).avg_api_latency
        ≤ (run_updates LatencyMetrics.init (some lat :: rest)).max_api_latency := by
  have hfold :
      run_updates LatencyMetrics.init (some lat :: rest)
        = run_updates (update_latency_metrics (some lat) LatencyMetrics.init) rest := rfl
  rw [hfold]
  exact run_updates_preserves rest _
    (update_latency_metrics_first_success lat).1
    (update_latency_metrics_first_success lat).2

/-- Recording at non-decreasing instants that all lie strictly within one
24-hour span never prunes anything: the stored sequence is exactly the
append of the recorded timestamps. -/
theorem record_all_eq_append (nows : List Int) (acc : List Int)
    (h : List.Pairwise (fun a b => b - DAY_US < a) (acc ++ nows)) :
    record_all acc nows = acc ++ nows := by
  induction nows generalizing acc with
  | nil => simp [record_all]
  | cons u rest ih =>
    have hsplit := List.pairwise_append.mp h
    have hkeep : record_request acc u = acc ++ [u] := by
      apply List.filter_eq_self.mpr
      intro x hx
      rcases List.mem_append.mp hx with hxa | hxu
      · exact decide_eq_true (hsplit.2.2 x hxa u (List.mem_cons_self _ _))
      · have hx0 : x = u := by simpa using hxu
        subst hx0
        have : (0 : Int) < DAY_US := by decide
        exact decide_eq_true (by omega)
    have hstep : record_all acc (u :: rest) = record_all (acc ++ [u]) rest := by
      simp [record_all, List.foldl_cons, hkeep]
    rw [hstep, ih (acc ++ [u]) (by simpa using h), List.append_assoc]
    rfl

/-- 25 requests recorded at time 0 (trivially within one 24-hour span) stay
stored; at `now = 24h` exactly — when the oldest is exactly, not *more
than*, 24 hours in the past — `can_make_request` already returns `true`,
against the claim that it stays `false` until the oldest is more than 24
hours in the past (the code drops a timestamp from the window as soon as
`time > now - 24h` fails, i.e. at age exactly 24 hours). -/
theorem c4_boundary_counterexample :
    record_all [] (List.replicate 25 (0 : Int)) = List.replicate 25 (0 : Int) ∧
    (can_make_request (List.replicate 25 (0 : Int)) DAY_US).1 = true ∧
    ¬ (DAY_US - (0 : Int) > DAY_US) := by
  refine ⟨by decide, by decide, by decide⟩

/-- C4 (amended): after the quota of 25 requests is recorded at
non-decreasing instants all lying strictly within one 24-hour span, the
stored sequence is exactly those timestamps, and `can_make_request` returns
`false` at every instant strictly before `oldest + 24h` and `true` from
`oldest + 24h` on — i.e. it flips as soon as the oldest timestamp is at
least (not strictly more than) 24 hours in the past.  In general,
permission is granted iff the count of stored timestamps of age strictly
below 24 hours is strictly below the quota. -/
theorem c4_quota_window_amended (t0 : Int) (rest : List Int) (now : Int)
    (hsort : List.Pairwise (· ≤ ·) (t0 :: rest))
    (hlen : (t0 :: rest).length = MAX_REQUESTS_PER_DAY)
    (hspan : ∀ u ∈ t0 :: rest, u < t0 + DAY_US) :
    record_all [] (t0 :: rest) = t0 :: rest ∧
    ((can_make_request (t0 :: rest) now).1 = true ↔ t0 + DAY_US ≤ now) ∧
    (∀ (state : List Int) (n : Int),
      (can_make_request state n).1 = true ↔
        (state.filter (fun t => decide (n - t < DAY_US))).length
          < MAX_REQUESTS_PER_DAY) := by
  have hlow : ∀ u ∈ t0 :: rest, t0 ≤ u := by
    intro u hu
    rcases List.mem_cons.mp hu with rfl | hu'
    · exact le_refl _
    · exact (List.pairwise_cons.mp hsort).1 u hu'
  refine ⟨?_, ⟨?_, ?_⟩, ?_⟩
  · apply record_all_eq_append
    simp only [List.nil_append]
    apply List.Pairwise.imp_of_mem ?_ hsort
    intro a b ha hb hab
    have h1 := hspan b hb
    have h2 := hlow a ha
    omega
  · intro hv
    by_contra hnow
    push_neg at hnow
    have hall : (t0 :: rest).filter (fun t => decide (now - DAY_US < t)) = t0 :: rest := by
      apply List.filter_eq_self.mpr
      intro u hu
      exact decide_eq_true (by have := hlow u hu; omega)
    have hv' : ((t0 :: rest).filter (fun t => decide (now - DAY_US < t))).length
        < MAX_REQUESTS_PER_DAY := of_decide_eq_true hv
    rw [hall, hlen] at hv'
    exact lt_irrefl _ hv'
  · intro hnow
    apply decide_eq_true
    have ht0 : ¬ (now - DAY_US < t0) := by omega
    have hdrop : (t0 :: rest).filter (fun t => decide (now - DAY_US < t))
        = rest.filter (fun t => decide (now - DAY_US < t)) := by
      simp [List.filter_cons, ht0]
    rw [hdrop]
    have hle := List.length_filter_le (fun t => decide (now - DAY_US < t)) rest
    have hr : rest.length + 1 = MAX_REQUESTS_PER_DAY := by
      simpa [List.length_cons] using hlen
    omega
  · intro state n
    have hfun : (fun t => decide (n - DAY_US < t)) = (fun t => decide (n - t < DAY_US)) := by
      funext t
      exact decide_eq_decide.mpr (by omega)
    simp only [can_make_request, hfun]
    exact decide_eq_true_iff

/-- Closed instance of `c4_quota_window_amended`: 25 requests at time 0; at
`now = 24h` the boundary verdict is `true`. -/
theorem c4_quota_window_amended_witness :
    record_all [] ((0 : Int) :: List.replicate 24 (0 : Int))
        = (0 : Int) :: List.replicate 24 (0 : Int) ∧
    ((can_make_request ((0 : Int) :: List.replicate 24 (0 : Int)) DAY_US).1 = true ↔
      (0 : Int) + DAY_US ≤ DAY_US) ∧
    (∀ (state : List Int) (n : Int),
      (can_make_request state n).1 = true ↔
        (state.filter (fun t => decide (n - t < DAY_US))).length
          < MAX_REQUESTS_PER_DAY) :=
  c4_quota_window_amended 0 (List.replicate 24 0) DAY_US
    (by decide) (by decide) (by decide)

/-- A stored timestamp of age beyond 24 hours survives a
`can_make_request` call untouched: the check is `const` and prunes
nothing, against the claim that every check prunes the stored sequence. -/
theorem c5_check_does_not_prune_counterexample :
    (can_make_request [(0 : Int)] (DAY_US + 1)).2 = [(0 : Int)] ∧
    (0 : Int) ≤ (DAY_US + 1) - DAY_US :=
  ⟨rfl, by decide⟩

/-- C5 (amended): `can_make_request` performs no state modification at
all — it only counts the timestamps inside the window; the pruning of
entries older than 24 hours happens in `record_request` instead, after
which every retained timestamp is strictly within the window. -/
theorem c5_check_pure_record_prunes :
    (∀ (times : List Int) (now : Int), (can_make_request times now).2 = times) ∧
    (∀ (times : List Int) (now t : Int),
      t ∈ record_request times now → now - DAY_US < t) := by
  refine ⟨fun _ _ => rfl, ?_⟩
  intro times now t ht
  have ht' : t ∈ (times ++ [now]).filter (fun u => decide (now - DAY_US < u)) := ht
  have h2 := (List.mem_filter.mp ht').2
  exact of_decide_eq_true h2

/-- Closed instance of `c5_check_pure_record_prunes`: the timestamp just
recorded is itself within the window. -/
theorem c5_check_pure_record_prunes_witness :
    (5 : Int) ∈ record_request [] 5 ∧ (5 : Int) - DAY_US < 5 :=
  ⟨by decide, c5_check_pure_record_prunes.2 [] 5 5 (by decide)⟩

end Trading
